import Mathlib

/-!
Verification of `reddit_ripper.py` (harrisonoest/reddit-ripper).

The Python source is shallowly embedded over `List Char` (Python `str`)
with an ASCII character model: Lean's `Char.isAlphanum`, `Char.toLower`
and an explicit whitespace class stand in for Python's `\w`, `str.lower`
and `\s` on ASCII text.
-/

namespace RedditRipper

/-- A comment node as the flattener sees it: `body` is `none` when the
object lacks a `body` attribute (Python `hasattr(comment, 'body')` is
false), and `replies` is the ordered list of child comments. -/
inductive Comment : Type where
  | node : Option (List Char) → List Comment → Comment

def Comment.body : Comment → Option (List Char)
  | .node b _ => b

def Comment.replies : Comment → List Comment
  | .node _ r => r

/-- Python string repetition `s * n`. -/
def strRepeat (s : List Char) : Nat → List Char
  | 0 => []
  | n + 1 => s ++ strRepeat s n

/-- Embedding of `RedditRipper.extract_comments` (src/reddit_ripper.py,
lines 39-53).  The loop body appends `("  " * depth) + "- " + body` for
each node that has a body, and recurses into `comment.replies` only when
`top_level_only` is false and the replies list is non-empty (Python list
truthiness); the recursive call does not pass `top_level_only`, so it
defaults to `False`. -/
def extract_comments : List Comment → Nat → Bool → List (List Char)
  | [], _, _ => []
  | Comment.node ob rs :: rest, depth, top_level_only =>
    (match ob with
     | some b =>
       (strRepeat [' ', ' '] depth ++ ['-', ' '] ++ b) ::
         (if !top_level_only && !rs.isEmpty then extract_comments rs (depth + 1) false else [])
     | none => []) ++ extract_comments rest depth top_level_only

/-- Total number of comment nodes in a forest (roots and all descendants). -/
def totalCount : List Comment → Nat
  | [] => 0
  | Comment.node _ rs :: rest => 1 + totalCount rs + totalCount rest

/-- Every node of the forest has a `body` attribute. -/
def allHaveBody : List Comment → Bool
  | [] => true
  | Comment.node ob rs :: rest => ob.isSome && (allHaveBody rs && allHaveBody rest)

/-- Modelled from the spec's words (§4.3): pre-order traversal emitting, for
each node at depth `d`, the line `("  " * d) + "- " + body`, children
immediately after their parent, siblings in order.  Used as the reference
against which `extract_comments` is compared. -/
def specFlatten : List Comment → Nat → List (List Char)
  | [], _ => []
  | Comment.node ob rs :: rest, d =>
    (strRepeat [' ', ' '] d ++ ['-', ' '] ++ ob.getD []) ::
      (specFlatten rs (d + 1) ++ specFlatten rest d)

/-- Removes every node lacking a body, together with its whole subtree. -/
def pruneBodyless : List Comment → List Comment
  | [] => []
  | Comment.node none _ :: rest => pruneBodyless rest
  | Comment.node (some b) rs :: rest =>
    Comment.node (some b) (pruneBodyless rs) :: pruneBodyless rest

theorem extract_comments_length (f : List Comment) (d : Nat) (tlo : Bool)
    (h : allHaveBody f = true) :
    (extract_comments f d tlo).length = if tlo then f.length else totalCount f := by
  induction f, d, tlo using extract_comments.induct with
  | case1 d tlo => simp [extract_comments, totalCount]
  | case2 ob rs rest d tlo ih1 ih2 =>
    cases ob with
    | none => simp [allHaveBody] at h
    | some b =>
      simp only [allHaveBody, Option.isSome_some, Bool.true_and, Bool.and_eq_true] at h
      obtain ⟨hrs, hrest⟩ := h
      cases tlo with
      | true =>
        simp [extract_comments, ih2 hrest]
      | false =>
        by_cases hempty : rs.isEmpty
        · have : rs = [] := List.isEmpty_iff.mp hempty
          subst this
          simp [extract_comments, totalCount, ih2 hrest]
          omega
        · simp [extract_comments, hempty, totalCount, ih1 hrs, ih2 hrest]
          omega

theorem extract_comments_spec_eq (f : List Comment) (d : Nat) (tlo : Bool) :
    tlo = false → allHaveBody f = true → extract_comments f d tlo = specFlatten f d := by
  induction f, d, tlo using extract_comments.induct with
  | case1 d tlo => intro _ _; simp [extract_comments, specFlatten]
  | case2 ob rs rest d tlo ih1 ih2 =>
    intro htlo h
    subst htlo
    cases ob with
    | none => simp [allHaveBody] at h
    | some b =>
      simp only [allHaveBody, Option.isSome_some, Bool.true_and, Bool.and_eq_true] at h
      obtain ⟨hrs, hrest⟩ := h
      by_cases hempty : rs.isEmpty
      · have : rs = [] := List.isEmpty_iff.mp hempty
        subst this
        simp [extract_comments, specFlatten, ih2 rfl hrest]
      · simp [extract_comments, specFlatten, hempty, ih1 rfl hrs, ih2 rfl hrest]

/-- C1: on forests where every node has a body, the flattened sequence has
length `totalCount f` when `top_level_only = false` and length `f.length`
(the number of depth-0 roots) when `top_level_only = true`. -/
theorem c1_flatten_length (f : List Comment) (h : allHaveBody f = true) :
    (extract_comments f 0 false).length = totalCount f ∧
    (extract_comments f 0 true).length = f.length := by
  constructor
  · simpa using extract_comments_length f 0 false h
  · simpa using extract_comments_length f 0 true h

def wforest1 : List Comment :=
  [Comment.node (some "a".toList)
     [Comment.node (some "b".toList) [Comment.node (some "c".toList) []]],
   Comment.node (some "d".toList) []]

/-- Witness for C1 at a concrete 4-node forest with 2 roots. -/
theorem c1_flatten_length_witness :
    allHaveBody wforest1 = true ∧
    ((extract_comments wforest1 0 false).length = totalCount wforest1 ∧
     (extract_comments wforest1 0 true).length = wforest1.length) :=
  ⟨by simp [wforest1, allHaveBody],
   c1_flatten_length wforest1 (by simp [wforest1, allHaveBody])⟩

/-- C2: on forests where every node has a body, `extract_comments` with
`top_level_only = false` equals the spec-side pre-order flattening: each
node at depth `d` contributes the line `("  " * d) + "- " + body`, parents
immediately before their children, siblings in original order. -/
theorem c2_preorder_lines (f : List Comment) (d : Nat) (h : allHaveBody f = true) :
    extract_comments f d false = specFlatten f d :=
  extract_comments_spec_eq f d false rfl h

def wforest2 : List Comment :=
  [Comment.node (some "Nice!".toList) [Comment.node (some "Thanks!".toList) []]]

/-- Witness for C2 at the spec's end-to-end scenario forest. -/
theorem c2_preorder_lines_witness :
    allHaveBody wforest2 = true ∧
    extract_comments wforest2 0 false = specFlatten wforest2 0 :=
  ⟨by simp [wforest2, allHaveBody],
   c2_preorder_lines wforest2 0 (by simp [wforest2, allHaveBody])⟩

/-- C3: with `top_level_only = true` and every node carrying a body, the
flattener returns exactly one line per root node (nested replies are
dropped without error) and never recurses. -/
theorem c3_top_level_only_map (f : List Comment) (d : Nat) (h : allHaveBody f = true) :
    extract_comments f d true =
      f.map (fun c => strRepeat [' ', ' '] d ++ ['-', ' '] ++ c.body.getD []) := by
  induction f with
  | nil => simp [extract_comments]
  | cons c rest ih =>
    obtain ⟨ob, rs⟩ := c
    cases ob with
    | none => simp [allHaveBody] at h
    | some b =>
      simp only [allHaveBody, Option.isSome_some, Bool.true_and, Bool.and_eq_true] at h
      simp [extract_comments, Comment.body, ih h.2]

def wforest3 : List Comment :=
  [Comment.node (some "Nice!".toList) [Comment.node (some "Thanks!".toList) []],
   Comment.node (some "Also".toList) [Comment.node (some "nested".toList) []]]

/-- Witness for C3 at a forest that does have nested replies. -/
theorem c3_top_level_only_map_witness :
    allHaveBody wforest3 = true ∧
    extract_comments wforest3 0 true =
      wforest3.map (fun c => strRepeat [' ', ' '] 0 ++ ['-', ' '] ++ c.body.getD []) :=
  ⟨by simp [wforest3, allHaveBody],
   c3_top_level_only_map wforest3 0 (by simp [wforest3, allHaveBody])⟩

/-- C10: a node without a body attribute contributes no line and its whole
subtree is skipped (its replies are never visited); in general the
flattener's output on any forest equals its output on the forest with every
bodyless node's subtree removed, and is always defined. -/
theorem c10_bodyless_skipped (f rs rest : List Comment) (d : Nat) (tlo : Bool) :
    extract_comments (Comment.node none rs :: rest) d tlo = extract_comments rest d tlo ∧
    extract_comments f d tlo = extract_comments (pruneBodyless f) d tlo := by
  constructor
  · simp [extract_comments]
  · induction f, d, tlo using extract_comments.induct with
    | case1 d tlo => simp [pruneBodyless]
    | case2 ob rs' rest' d tlo ih1 ih2 =>
      cases ob with
      | none => simpa [extract_comments, pruneBodyless] using ih2
      | some b =>
        simp only [extract_comments, pruneBodyless, List.cons_append]
        rw [ih2]
        congr 1
        congr 1
        cases tlo with
        | true => simp
        | false =>
          by_cases hempty : rs'.isEmpty
          · have : rs' = [] := List.isEmpty_iff.mp hempty
            subst this
            simp [pruneBodyless]
          · rw [ih1]
            by_cases hp : (pruneBodyless rs').isEmpty
            · have hpe : pruneBodyless rs' = [] := List.isEmpty_iff.mp hp
              simp [hempty, hp, hpe, extract_comments]
            · simp [hempty, hp]

/-! ## Text sanitizer (`RedditRipper.sanitize_filename`, lines 29-37)

The three regex substitutions and `str.lower` consult Python's Unicode
character database.  The pipeline is therefore embedded parametrically in
the character tables (`PyStrModel`): `isWordU` for `\w`, `isSpaceU` for
`\s`, and `lowerU` for `str.lower` - which maps one character to a
string, possibly of length greater than one (U+0130 lowers to `i`
followed by U+0307).  `stdTables` instantiates the tables exactly on
ASCII and on the code points U+0130/U+0307; theorems about the
instantiated `sanitize_filename` either carry an all-ASCII hypothesis or
evaluate it only at those tabled code points, while the C5 theorem is
proved for every table satisfying stated properties of the real Unicode
database. -/

/-- The characters removed by `re.sub(r'[<>:"/\\|?*]', '', text)`. -/
def illegalChars : List Char := ['<', '>', ':', '"', '/', '\\', '|', '?', '*']

def isIllegal (c : Char) : Bool := illegalChars.contains c

/-- Python `\s` restricted to ASCII:
`[ \t\n\r\x0b\x0c\x1c\x1d\x1e\x1f]`. -/
def isPySpace (c : Char) : Bool :=
  c = ' ' || c = '\t' || c = '\n' || c = '\r' || c = '\x0b' || c = '\x0c' ||
    c = '\x1c' || c = '\x1d' || c = '\x1e' || c = '\x1f'

/-- Python `\w` restricted to ASCII: `[a-zA-Z0-9_]`. -/
def isWordChar (c : Char) : Bool :=
  (97 ≤ c.toNat && c.toNat ≤ 122) || (65 ≤ c.toNat && c.toNat ≤ 90) ||
    (48 ≤ c.toNat && c.toNat ≤ 57) || c = '_'

/-- Character tables the source delegates to Python's regex engine and
`str.lower`: membership in `\w` and `\s`, and the (possibly multi-char)
lowercase image of each character. -/
structure PyStrModel where
  isWordU : Char → Bool
  isSpaceU : Char → Bool
  lowerU : Char → List Char

/-- The class `[-\s]` collapsed by the third substitution. -/
def isSpaceHyphenU (M : PyStrModel) (c : Char) : Bool := c = '-' || M.isSpaceU c

/-- Step 1: `re.sub(r'[<>:"/\\|?*]', '', text)`. -/
def removeIllegal (s : List Char) : List Char := s.filter (fun c => !isIllegal c)

/-- Step 2: `re.sub(r'[^\w\s-]', '', text)`. -/
def keepWordChars (M : PyStrModel) (s : List Char) : List Char :=
  s.filter (fun c => M.isWordU c || M.isSpaceU c || c = '-')

/-- Step 3: `re.sub(r'[-\s]+', '_', text)`: each maximal run of `[-\s]`
becomes a single underscore.  `inRun` records whether the previous
character was in the class. -/
def collapseAux (M : PyStrModel) : List Char → Bool → List Char
  | [], _ => []
  | c :: rest, inRun =>
    if isSpaceHyphenU M c then
      if inRun then collapseAux M rest true else '_' :: collapseAux M rest true
    else c :: collapseAux M rest false

def collapseRuns (M : PyStrModel) (s : List Char) : List Char := collapseAux M s false

/-- Python `str.lower`: concatenation of per-character lowercase images. -/
def pyLower (M : PyStrModel) (s : List Char) : List Char := s.flatMap M.lowerU

/-- Python `str.strip('_')`: remove leading and trailing underscores. -/
def stripUnderscores (s : List Char) : List Char :=
  ((s.dropWhile (fun c => c = '_')).reverse.dropWhile (fun c => c = '_')).reverse

/-- Embedding of `RedditRipper.sanitize_filename` (lines 29-37) over the
tables `M`: remove path-illegal characters, drop everything outside
`[\w\s-]`, collapse `[-\s]+` runs to `_`, lower-case, truncate to 100,
strip `_`. -/
def sanitizeWith (M : PyStrModel) (s : List Char) : List Char :=
  stripUnderscores ((pyLower M (collapseRuns M (keepWordChars M (removeIllegal s)))).take 100)

/-- Partial instantiation of the Unicode tables, exact on ASCII and on
U+0130 ('İ', which is `\w` and lowers to `i` followed by the combining
mark U+0307, itself neither `\w` nor `\s`).  Characters outside this
domain are classified as neither word nor space and lower to themselves,
which is not faithful to Python for, say, accented letters - so theorems
about the instantiated function quantify over ASCII inputs only, except
where they evaluate it at the tabled code points. -/
def stdTables : PyStrModel where
  isWordU c := isWordChar c || c = 'İ'
  isSpaceU c := isPySpace c
  lowerU c := if c = 'İ' then ['i', '̇'] else [Char.toLower c]

/-- Embedding of `RedditRipper.sanitize_filename` at the instantiated
tables. -/
def sanitize_filename (s : List Char) : List Char := sanitizeWith stdTables s

theorem toNat_ofNat_le122 (n : Nat) (h2 : n ≤ 122) : (Char.ofNat n).toNat = n := by
  unfold Char.ofNat
  split
  · rfl
  · rename_i h
    exact absurd (Or.inl (by omega)) h

theorem toLower_of_upper (c : Char) (h1 : 65 ≤ c.toNat) (h2 : c.toNat ≤ 90) :
    (Char.toLower c).toNat = c.toNat + 32 := by
  unfold Char.toLower
  rw [if_pos ⟨h1, h2⟩]
  exact toNat_ofNat_le122 _ (by omega)

theorem toLower_of_not_upper (c : Char) (h : ¬(65 ≤ c.toNat ∧ c.toNat ≤ 90)) :
    Char.toLower c = c := by
  unfold Char.toLower
  exact if_neg h

theorem toLower_idem (c : Char) : Char.toLower (Char.toLower c) = Char.toLower c := by
  by_cases h : 65 ≤ c.toNat ∧ c.toNat ≤ 90
  · have hn := toLower_of_upper c h.1 h.2
    exact toLower_of_not_upper _ (by omega)
  · rw [toLower_of_not_upper c h, toLower_of_not_upper c h]

theorem isWordChar_toLower (c : Char) (h : isWordChar c = true) :
    isWordChar (Char.toLower c) = true := by
  by_cases hu : 65 ≤ c.toNat ∧ c.toNat ≤ 90
  · have hn := toLower_of_upper c hu.1 hu.2
    simp only [isWordChar, Bool.or_eq_true, Bool.and_eq_true, decide_eq_true_eq] at *
    omega
  · rwa [toLower_of_not_upper c hu]

theorem isIllegal_of_isWordChar (c : Char) (h : isWordChar c = true) :
    isIllegal c = false := by
  cases hc : isIllegal c with
  | false => rfl
  | true =>
    exfalso
    have hm : c ∈ illegalChars := List.elem_iff.mp hc
    simp only [illegalChars, List.mem_cons, List.not_mem_nil, or_false] at hm
    rcases hm with rfl | rfl | rfl | rfl | rfl | rfl | rfl | rfl | rfl <;>
      exact absurd h (by decide)

theorem isSpaceHyphen_of_isWordChar (c : Char) (h : isWordChar c = true) :
    isSpaceHyphenU stdTables c = false := by
  cases hc : isSpaceHyphenU stdTables c with
  | false => rfl
  | true =>
    exfalso
    simp only [isSpaceHyphenU, stdTables, isPySpace, Bool.or_eq_true,
      decide_eq_true_eq] at hc
    rcases hc with rfl |
      (((((((((rfl | rfl) | rfl) | rfl) | rfl) | rfl) | rfl) | rfl) | rfl) | rfl) <;>
      exact absurd h (by decide)

theorem mem_collapseAux (M : PyStrModel) (s : List Char) :
    ∀ b, ∀ c ∈ collapseAux M s b, c = '_' ∨ (c ∈ s ∧ isSpaceHyphenU M c = false) := by
  induction s with
  | nil => intro b c hc; simp [collapseAux] at hc
  | cons a rest ih =>
    intro b c hc
    by_cases hsp : isSpaceHyphenU M a = true
    · cases b with
      | true =>
        rw [show collapseAux M (a :: rest) true = collapseAux M rest true from by
          simp [collapseAux, hsp]] at hc
        rcases ih true c hc with h | ⟨h1, h2⟩
        · exact Or.inl h
        · exact Or.inr ⟨List.mem_cons_of_mem a h1, h2⟩
      | false =>
        rw [show collapseAux M (a :: rest) false = '_' :: collapseAux M rest true from by
          simp [collapseAux, hsp]] at hc
        rcases List.mem_cons.mp hc with rfl | hc'
        · exact Or.inl rfl
        · rcases ih true c hc' with h | ⟨h1, h2⟩
          · exact Or.inl h
          · exact Or.inr ⟨List.mem_cons_of_mem a h1, h2⟩
    · rw [show collapseAux M (a :: rest) b = a :: collapseAux M rest false from by
        simp [collapseAux, hsp]] at hc
      rcases List.mem_cons.mp hc with heq | hc'
      · rw [heq]
        exact Or.inr ⟨List.mem_cons_self a rest, by simpa using hsp⟩
      · rcases ih false c hc' with h | ⟨h1, h2⟩
        · exact Or.inl h
        · exact Or.inr ⟨List.mem_cons_of_mem a h1, h2⟩

theorem collapseAux_of_no_spaceHyphen (M : PyStrModel) (s : List Char)
    (hs : ∀ c ∈ s, isSpaceHyphenU M c = false) : ∀ b, collapseAux M s b = s := by
  induction s with
  | nil => intro b; rfl
  | cons a rest ih =>
    intro b
    have ha := hs a (List.mem_cons_self a rest)
    have hrest : ∀ c ∈ rest, isSpaceHyphenU M c = false :=
      fun c hc => hs c (List.mem_cons_of_mem a hc)
    simp only [collapseAux, ha, Bool.false_eq_true, if_false]
    rw [ih hrest false]

theorem mem_stripUnderscores (s : List Char) (c : Char) (hc : c ∈ stripUnderscores s) :
    c ∈ s := by
  unfold stripUnderscores at hc
  rw [List.mem_reverse] at hc
  have h1 := (List.dropWhile_sublist (fun c => decide (c = '_'))).subset hc
  rw [List.mem_reverse] at h1
  exact (List.dropWhile_sublist (fun c => decide (c = '_'))).subset h1

theorem length_stripUnderscores_le (s : List Char) :
    (stripUnderscores s).length ≤ s.length := by
  unfold stripUnderscores
  rw [List.length_reverse]
  calc ((s.dropWhile (fun c => decide (c = '_'))).reverse.dropWhile
          (fun c => decide (c = '_'))).length
      ≤ (s.dropWhile (fun c => decide (c = '_'))).reverse.length :=
        (List.dropWhile_sublist _).length_le
    _ = (s.dropWhile (fun c => decide (c = '_'))).length := List.length_reverse _
    _ ≤ s.length := (List.dropWhile_sublist _).length_le

theorem flatMap_id_of_fixed {l : List Char} {f : Char → List Char}
    (h : ∀ c ∈ l, f c = [c]) : l.flatMap f = l := by
  induction l with
  | nil => rfl
  | cons a t ih =>
    rw [List.flatMap_cons, h a (List.mem_cons_self a t),
      ih (fun c hc => h c (List.mem_cons_of_mem a hc)), List.singleton_append]

/-- Every character of the sanitizer's output is in the lowercase image
of either `_` or some word character of the input. -/
theorem sanitizeWith_mem (M : PyStrModel) (s : List Char) (c : Char)
    (hc : c ∈ sanitizeWith M s) :
    ∃ a, (a = '_' ∨ (a ∈ s ∧ M.isWordU a = true)) ∧ c ∈ M.lowerU a := by
  unfold sanitizeWith at hc
  have h1 := mem_stripUnderscores _ c hc
  have h2 := (List.take_sublist 100 _).subset h1
  unfold pyLower at h2
  rw [List.mem_flatMap] at h2
  obtain ⟨a, ha, hca⟩ := h2
  refine ⟨a, ?_, hca⟩
  rcases mem_collapseAux M _ false a ha with h | ⟨hmem, hsh⟩
  · exact Or.inl h
  · obtain ⟨hmem', hpred⟩ := List.mem_filter.mp hmem
    have hmemS : a ∈ s := (List.mem_filter.mp hmem').1
    refine Or.inr ⟨hmemS, ?_⟩
    unfold isSpaceHyphenU at hsh
    obtain ⟨hsh1, hsh2⟩ := Bool.or_eq_false_iff.mp hsh
    simp only [Bool.or_eq_true, decide_eq_true_eq] at hpred
    rcases hpred with (h | h) | h
    · exact h
    · rw [h] at hsh2
      exact absurd hsh2 (by simp)
    · rw [h] at hsh1
      exact absurd hsh1 (by simp)

theorem sanitizeWith_length_le (M : PyStrModel) (s : List Char) :
    (sanitizeWith M s).length ≤ 100 := by
  unfold sanitizeWith
  calc (stripUnderscores ((pyLower M (collapseRuns M (keepWordChars M
          (removeIllegal s)))).take 100)).length
      ≤ ((pyLower M (collapseRuns M (keepWordChars M
          (removeIllegal s)))).take 100).length := length_stripUnderscores_le _
    _ ≤ 100 := List.length_take_le _ _

theorem dropWhile_prefix_self {p : Char → Bool} {l l' : List Char}
    (hl : List.dropWhile p l = l) (hpre : l' <+: l) : List.dropWhile p l' = l' := by
  cases l' with
  | nil => rfl
  | cons c t =>
    obtain ⟨u, hu⟩ := hpre
    have hp : p c = false := by
      by_contra hpc
      rw [Bool.not_eq_false] at hpc
      rw [← hu, List.cons_append, List.dropWhile_cons, if_pos hpc] at hl
      have := congrArg List.length hl
      have hle : (List.dropWhile p (t ++ u)).length ≤ (t ++ u).length :=
        (List.dropWhile_sublist p).length_le
      simp [List.length_append] at this hle
      omega
    rw [List.dropWhile_cons, if_neg (by simp [hp])]

theorem stripUnderscores_idem (s : List Char) :
    stripUnderscores (stripUnderscores s) = stripUnderscores s := by
  set p : Char → Bool := fun c => decide (c = '_') with hp
  set a := List.dropWhile p s with hadef
  have ha : List.dropWhile p a = a := List.dropWhile_idempotent p s
  set b := List.dropWhile p a.reverse with hbdef
  have hb : List.dropWhile p b = b := List.dropWhile_idempotent p a.reverse
  have hr_pre : b.reverse <+: a := by
    have hsuf : b <:+ a.reverse := List.dropWhile_suffix p
    have := List.reverse_prefix.mpr hsuf
    rwa [List.reverse_reverse] at this
  have hr : List.dropWhile p b.reverse = b.reverse := dropWhile_prefix_self ha hr_pre
  show ((List.dropWhile p b.reverse).reverse.dropWhile p).reverse = b.reverse
  rw [hr, List.reverse_reverse, hb]

theorem sanitize_filename_length_le (s : List Char) :
    (sanitize_filename s).length ≤ 100 := sanitizeWith_length_le stdTables s

/-- Every character of `sanitize_filename` of an all-ASCII input is an
ASCII word character fixed by the ASCII case map. -/
theorem sanitize_filename_mem_ascii (s : List Char) (hs : ∀ c ∈ s, c.toNat < 128) :
    ∀ c ∈ sanitize_filename s, isWordChar c = true ∧ Char.toLower c = c := by
  intro c hc
  obtain ⟨a, ha, hca⟩ := sanitizeWith_mem stdTables s c hc
  have haw : isWordChar a = true := by
    rcases ha with rfl | ⟨has, hw⟩
    · decide
    · have hlt : a.toNat < 128 := hs a has
      simp only [stdTables, Bool.or_eq_true, decide_eq_true_eq] at hw
      rcases hw with hw | rfl
      · exact hw
      · exact absurd hlt (by decide)
  have hane : a ≠ 'İ' := by
    intro he
    rw [he] at haw
    exact absurd haw (by decide)
  rw [show stdTables.lowerU a =
    (if a = 'İ' then ['i', '̇'] else [Char.toLower a]) from rfl, if_neg hane] at hca
  have hceq : c = Char.toLower a := by simpa using hca
  subst hceq
  exact ⟨isWordChar_toLower a haw, toLower_idem a⟩

/-- Counterexample to C4 as stated: Python's `\w` matches U+0130 ('İ')
and `str.lower` maps it to `i` followed by the combining mark U+0307,
which is not `\w`; the second pass deletes the mark, so sanitizing twice
differs from sanitizing once. -/
theorem c4_counterexample :
    sanitize_filename ['İ'] = ['i', '̇'] ∧
    sanitize_filename (sanitize_filename ['İ']) = ['i'] ∧
    sanitize_filename (sanitize_filename ['İ']) ≠ sanitize_filename ['İ'] :=
  ⟨by decide, by decide, by decide⟩

/-- C4 as amended: `sanitize_filename` is idempotent on every ASCII
input (every code point below 128); full-Unicode inputs can break
idempotence, as the counterexample at U+0130 shows. -/
theorem c4_sanitize_idempotent_ascii (s : List Char) (hs : ∀ c ∈ s, c.toNat < 128) :
    sanitize_filename (sanitize_filename s) = sanitize_filename s := by
  have hmem := sanitize_filename_mem_ascii s hs
  have h1 : removeIllegal (sanitize_filename s) = sanitize_filename s :=
    List.filter_eq_self.mpr fun c hc => by
      rw [isIllegal_of_isWordChar c (hmem c hc).1]; rfl
  have h2 : keepWordChars stdTables (sanitize_filename s) = sanitize_filename s :=
    List.filter_eq_self.mpr fun c hc => by
      simp [stdTables, (hmem c hc).1]
  have h3 : collapseRuns stdTables (sanitize_filename s) = sanitize_filename s := by
    unfold collapseRuns
    exact collapseAux_of_no_spaceHyphen stdTables _
      (fun c hc => isSpaceHyphen_of_isWordChar c (hmem c hc).1) false
  have h4 : pyLower stdTables (sanitize_filename s) = sanitize_filename s := by
    unfold pyLower
    refine flatMap_id_of_fixed fun c hc => ?_
    have haw := (hmem c hc).1
    have hane : c ≠ 'İ' := by
      intro he
      rw [he] at haw
      exact absurd haw (by decide)
    show stdTables.lowerU c = [c]
    rw [show stdTables.lowerU c =
      (if c = 'İ' then ['i', '̇'] else [Char.toLower c]) from rfl, if_neg hane,
      (hmem c hc).2]
  have h6 : (sanitize_filename s).take 100 = sanitize_filename s :=
    List.take_of_length_le (sanitize_filename_length_le s)
  rw [show sanitize_filename (sanitize_filename s) =
    stripUnderscores ((pyLower stdTables (collapseRuns stdTables (keepWordChars stdTables
      (removeIllegal (sanitize_filename s))))).take 100) from rfl]
  rw [h1, h2, h3, h4, h6]
  unfold sanitize_filename sanitizeWith
  exact stripUnderscores_idem _

/-- Witness for C4 (amended) at a concrete ASCII string. -/
theorem c4_sanitize_idempotent_ascii_witness :
    (∀ c ∈ "Some Title!".toList, c.toNat < 128) ∧
    sanitize_filename (sanitize_filename "Some Title!".toList) =
      sanitize_filename "Some Title!".toList :=
  ⟨by decide, c4_sanitize_idempotent_ascii "Some Title!".toList (by decide)⟩

/-- The instantiated tables satisfy the C5 hypotheses: lowercase images
of word characters contain no path-illegal character. -/
theorem stdTables_lower_safe (c : Char) (h : stdTables.isWordU c = true) :
    ∀ d ∈ stdTables.lowerU c, isIllegal d = false := by
  intro d hd
  by_cases hi : c = 'İ'
  · subst hi
    rw [show stdTables.lowerU 'İ' = ['i', '̇'] from rfl] at hd
    rcases List.mem_cons.mp hd with rfl | hd'
    · decide
    · rcases List.mem_cons.mp hd' with rfl | hd''
      · decide
      · exact absurd hd'' (by simp)
  · rw [show stdTables.lowerU c =
      (if c = 'İ' then ['i', '̇'] else [Char.toLower c]) from rfl, if_neg hi] at hd
    have hw : isWordChar c = true := by
      simp only [stdTables, Bool.or_eq_true, decide_eq_true_eq] at h
      rcases h with h | h
      · exact h
      · exact absurd h hi
    have hd : d = Char.toLower c := by simpa using hd
    subst hd
    exact isIllegal_of_isWordChar _ (isWordChar_toLower c hw)

/-- C5: for every character-table instantiation in which `_` counts as a
word character and lowercase images of word characters contain no
path-illegal character - facts of the real Unicode database, checked for
the instantiated tables in `stdTables_lower_safe` - the sanitizer built
on those tables returns, on every input, at most 100 characters, none of
them among `<>:"/\|?*`; it maps the empty string to the empty string and
every all-illegal string to the empty string, and, being a total
function, never raises. -/
theorem c5_sanitize_safe (M : PyStrModel) (hund : M.isWordU '_' = true)
    (hlower : ∀ c, M.isWordU c = true → ∀ d ∈ M.lowerU c, isIllegal d = false)
    (s : List Char) :
    (sanitizeWith M s).length ≤ 100 ∧
    (∀ c ∈ sanitizeWith M s, isIllegal c = false) ∧
    sanitizeWith M [] = [] ∧
    ((∀ c ∈ s, isIllegal c = true) → sanitizeWith M s = []) := by
  refine ⟨sanitizeWith_length_le M s, fun c hc => ?_, rfl, fun hill => ?_⟩
  · obtain ⟨a, ha, hca⟩ := sanitizeWith_mem M s c hc
    rcases ha with rfl | ⟨_, hw⟩
    · exact hlower '_' hund c hca
    · exact hlower a hw c hca
  · have hrm : removeIllegal s = [] :=
      List.filter_eq_nil_iff.mpr fun c hc => by simp [hill c hc]
    unfold sanitizeWith
    rw [hrm]
    rfl

/-- Witness for C5 at the instantiated tables and a string consisting
only of path-illegal characters. -/
theorem c5_sanitize_safe_witness : sanitizeWith stdTables ['?', '/', '*'] = [] :=
  (c5_sanitize_safe stdTables (by decide) stdTables_lower_safe ['?', '/', '*']).2.2.2
    (by decide)

/-! ## URL parser (`RedditRipper.extract_post_id`, lines 23-27, and the
`ValueError` raised in `extract_post`, lines 57-59)

`re.search(r'/comments/([a-zA-Z0-9]+)', url)` scans positions left to
right and, at the first position where the literal `/comments/` is
followed by at least one `[a-zA-Z0-9]`, captures the maximal such run. -/

def commentsPat : List Char := "/comments/".toList

/-- One attempt of the regex at the head of `s`. -/
def matchAt (s : List Char) : Option (List Char) :=
  if commentsPat.isPrefixOf s then
    let cap := (s.drop 10).takeWhile Char.isAlphanum
    if cap.isEmpty then none else some cap
  else none

/-- Scan loop of `re.search`: the leftmost position wins. -/
def searchFrom : List Char → Option (List Char)
  | [] => none
  | s@(_ :: t) =>
    match matchAt s with
    | some cap => some cap
    | none => searchFrom t

/-- Embedding of `RedditRipper.extract_post_id` (lines 23-27). -/
def extract_post_id (url : List Char) : Option (List Char) := searchFrom url

/-- Embedding of the guard in `RedditRipper.extract_post` (lines 57-59):
`raise ValueError("Invalid Reddit URL")` when no id is found. -/
def extract_post_parse (url : List Char) : Except (List Char) (List Char) :=
  match extract_post_id url with
  | none => Except.error "Invalid Reddit URL".toList
  | some cap => Except.ok cap

/-- The claim's notion of "URL containing a segment
`/comments/<alphanumeric-id>/`" (note the terminating slash). -/
def containsSegment (url cap : List Char) : Prop :=
  cap ≠ [] ∧ cap.all Char.isAlphanum = true ∧ (commentsPat ++ cap ++ ['/']) <:+: url

theorem matchAt_sound (s cap : List Char) (h : matchAt s = some cap) :
    cap ≠ [] ∧ cap.all Char.isAlphanum = true ∧ (commentsPat ++ cap) <+: s := by
  unfold matchAt at h
  by_cases hp : commentsPat.isPrefixOf s
  · rw [if_pos hp] at h
    by_cases he : ((s.drop 10).takeWhile Char.isAlphanum).isEmpty
    · rw [if_pos he] at h; exact absurd h (by simp)
    · rw [if_neg he] at h
      injection h with h
      subst h
      refine ⟨fun hnil => he (by rw [hnil]; rfl), ?_, ?_⟩
      · rw [List.all_eq_true]
        exact fun c hc => List.mem_takeWhile_imp hc
      · obtain ⟨r, hr⟩ := List.isPrefixOf_iff_prefix.mp hp
        have hdrop : s.drop 10 = r := by
          rw [← hr, show (10 : Nat) = commentsPat.length from rfl, List.drop_left]
        rw [hdrop]
        obtain ⟨u, hu⟩ := List.takeWhile_prefix (l := r) Char.isAlphanum
        exact ⟨u, by rw [List.append_assoc, hu, hr]⟩
  · rw [if_neg hp] at h
    exact absurd h (by simp)

theorem searchFrom_sound (url : List Char) :
    ∀ cap, searchFrom url = some cap →
      cap ≠ [] ∧ cap.all Char.isAlphanum = true ∧ (commentsPat ++ cap) <:+: url := by
  induction url with
  | nil => intro cap h; exact absurd h (by simp [searchFrom])
  | cons a t ih =>
    intro cap h
    unfold searchFrom at h
    cases hm : matchAt (a :: t) with
    | some cap' =>
      rw [hm] at h
      injection h with h
      subst h
      obtain ⟨h1, h2, h3⟩ := matchAt_sound _ _ hm
      exact ⟨h1, h2, h3.isInfix⟩
    | none =>
      rw [hm] at h
      obtain ⟨h1, h2, h3⟩ := ih cap h
      exact ⟨h1, h2, List.infix_cons h3⟩

theorem searchFrom_complete (url : List Char) :
    ∀ c, Char.isAlphanum c = true → (commentsPat ++ [c]) <:+: url →
      (searchFrom url).isSome = true := by
  induction url with
  | nil =>
    intro c _ hinf
    rw [List.infix_nil] at hinf
    exact absurd hinf (by simp)
  | cons a t ih =>
    intro c hc hinf
    rcases List.infix_cons_iff.mp hinf with hpre | hinf'
    · have hp : commentsPat.isPrefixOf (a :: t) = true :=
        List.isPrefixOf_iff_prefix.mpr ((List.prefix_append commentsPat [c]).trans hpre)
      obtain ⟨u, hu⟩ := hpre
      have hdrop : (a :: t).drop 10 = c :: u := by
        rw [← hu, List.append_assoc, show (10 : Nat) = commentsPat.length from rfl,
          List.drop_left, List.singleton_append]
      unfold searchFrom matchAt
      rw [hp, if_pos rfl, hdrop, List.takeWhile_cons, if_pos hc]
      simp
    · have hrec := ih c hc hinf'
      unfold searchFrom
      cases hm : matchAt (a :: t) with
      | some cap => simp
      | none => simpa using hrec

def urlTwoSegments : List Char := "/comments/x/comments/abc/".toList

/-- Counterexample to C6 as stated: this URL contains the segment
`/comments/abc/`, yet the parser does not return `abc` (it returns `x`,
the capture at the leftmost occurrence of `/comments/`). -/
theorem c6_counterexample :
    containsSegment urlTwoSegments "abc".toList ∧
    extract_post_id urlTwoSegments ≠ some "abc".toList :=
  ⟨⟨by decide, by decide, ⟨"/comments/x".toList, [], by decide⟩⟩, by decide⟩

/-- C6 as amended: any id the parser returns is a nonempty alphanumeric
run such that `/comments/<id>` occurs in the URL; whenever `/comments/`
followed by at least one alphanumeric character occurs anywhere in the
URL the parser returns an id; and when it returns none, `extract_post`
signals the InvalidInput error (raises `ValueError("Invalid Reddit
URL")`).  The input is never mutated (the embedding is a pure function of
the URL). -/
theorem c6_url_parse (url : List Char) :
    (∀ cap, extract_post_id url = some cap →
       cap ≠ [] ∧ cap.all Char.isAlphanum = true ∧ (commentsPat ++ cap) <:+: url) ∧
    (∀ c, Char.isAlphanum c = true → (commentsPat ++ [c]) <:+: url →
       (extract_post_id url).isSome = true) ∧
    (extract_post_id url = none →
       extract_post_parse url = Except.error "Invalid Reddit URL".toList) := by
  refine ⟨searchFrom_sound url, searchFrom_complete url, fun h => ?_⟩
  unfold extract_post_parse
  rw [h]

def urlScenario : List Char := "https://reddit.example/r/test/comments/abc123/some_title/".toList

def urlNoSegment : List Char := "https://example.com/xyz".toList

/-- Witness for C6 (amended) at the spec's end-to-end scenario URL and at
a URL with no `/comments/` occurrence. -/
theorem c6_url_parse_witness :
    ("abc123".toList ≠ [] ∧ "abc123".toList.all Char.isAlphanum = true ∧
       (commentsPat ++ "abc123".toList) <:+: urlScenario) ∧
    (extract_post_id urlScenario).isSome = true ∧
    extract_post_parse urlNoSegment = Except.error "Invalid Reddit URL".toList :=
  ⟨(c6_url_parse urlScenario).1 "abc123".toList (by decide),
   (c6_url_parse urlScenario).2.1 'a' (by decide)
     ⟨"https://reddit.example/r/test".toList, "bc123/some_title/".toList, by decide⟩,
   (c6_url_parse urlNoSegment).2.2 (by decide)⟩

/-! ## Document formatter and file writer (lines 66-102) -/

/-- The post data consumed by the formatter (built in `extract_post`,
lines 66-72); `comments` holds the already-flattened lines. -/
structure PostData where
  title : List Char
  subreddit : List Char
  content : List Char
  url : List Char
  comments : List (List Char)

/-- Line 69: `submission.selftext or '[Link Post]'` (the empty string is
falsy in Python). -/
def resolveContent (selftext : List Char) : List Char :=
  if selftext.isEmpty then "[Link Post]".toList else selftext

/-- Embedding of `RedditRipper.format_markdown` (lines 76-87), statement
by statement. -/
def format_markdown (pd : PostData) : List Char :=
  let md := "# ".toList ++ pd.title ++ "\n\n".toList
  let md := md ++ "**Original Post:** ".toList ++ pd.url ++ "\n\n".toList
  let md := md ++ "**Subreddit:** r/".toList ++ pd.subreddit ++ "\n\n".toList
  let md := md ++ "## Post Content\n\n".toList ++ pd.content ++ "\n\n".toList
  let md := if !pd.comments.isEmpty then
      md ++ "## Comments\n\n".toList ++ List.intercalate ['\n'] pd.comments
    else md
  md

/-- Modelled from the claim's words: the document is `# <title>`, blank
line, `**Original Post:** <source_url>`, blank line,
`**Subreddit:** r/<subreddit>`, blank line, `## Post Content` followed by
the body text, and - only when the comment lines are non-empty - a
`## Comments` section with the flattened lines joined by single
newlines. -/
def specMarkdown (pd : PostData) : List Char :=
  "# ".toList ++ pd.title ++ "\n\n".toList ++
    "**Original Post:** ".toList ++ pd.url ++ "\n\n".toList ++
    "**Subreddit:** r/".toList ++ pd.subreddit ++ "\n\n".toList ++
    "## Post Content\n\n".toList ++ pd.content ++ "\n\n".toList ++
    (if pd.comments = [] then []
     else "## Comments\n\n".toList ++ List.intercalate ['\n'] pd.comments)

/-- C7: `format_markdown` produces exactly the document the claim lists,
with the body text replaced by the `[Link Post]` placeholder exactly when
the post has no text body; it is a pure function of the `PostData`. -/
theorem c7_format_markdown (title sub url selftext : List Char)
    (comments : List (List Char)) :
    format_markdown ⟨title, sub, resolveContent selftext, url, comments⟩ =
      specMarkdown ⟨title, sub,
        (if selftext = [] then "[Link Post]".toList else selftext), url, comments⟩ := by
  by_cases h : comments = []
  · simp [format_markdown, specMarkdown, resolveContent, h, List.isEmpty_iff,
      List.append_assoc]
  · simp [format_markdown, specMarkdown, resolveContent, h, List.isEmpty_iff,
      List.append_assoc]

/-- Model of `os.path.join(a, b)` for POSIX paths, one-step case. -/
def osPathJoin (a b : List Char) : List Char :=
  if b.head? = some '/' then b
  else if a.isEmpty || a.getLast? = some '/' then a ++ b
  else a ++ '/' :: b

/-- Embedding of the path computation of `RedditRipper.save_to_file`
(lines 89-102): `reddit_<sanitized-title>_<sanitized-subreddit>.md` under
the `output` directory; the returned value is the written path.  (The
directory creation and the write itself are filesystem effects outside
the embedding.) -/
def save_to_file (pd : PostData) : List Char :=
  let t := sanitize_filename pd.title
  let s := sanitize_filename pd.subreddit
  let filename := "reddit_".toList ++ t ++ "_".toList ++ s ++ ".md".toList
  osPathJoin "output".toList filename

/-- C8: the output path is exactly
`output/reddit_<sanitize(title)>_<sanitize(subreddit)>.md`. -/
theorem c8_save_path (pd : PostData) :
    save_to_file pd = "output/reddit_".toList ++ sanitize_filename pd.title ++
      "_".toList ++ sanitize_filename pd.subreddit ++ ".md".toList := rfl

/-! ## Credential resolution in `main` (lines 116-121) -/

/-- Python truthiness of an optional string: `None` and `""` are falsy. -/
def truthy : Option String → Bool
  | none => false
  | some s => s ≠ ""

/-- Python `a or b` on optional strings. -/
def pyOr (a b : Option String) : Option String := if truthy a then a else b

def credsMsg : List Char :=
  "Error: Reddit API credentials required. Provide via CLI args or .env file.".toList

/-- Embedding of lines 116-121 of `main`: resolve each credential as
`cli_flag or env_value`; when either resolves falsy, print `credsMsg` to
stderr and exit 1 before the fetch (`Except.error (1, msg)`); otherwise
continue to the fetch with the resolved pair (`Except.ok`). -/
def mainCredsStep (cliId cliSecret envId envSecret : Option String) :
    Except (Nat × List Char) (String × String) :=
  let cid := pyOr cliId envId
  let cs := pyOr cliSecret envSecret
  if !truthy cid || !truthy cs then Except.error (1, credsMsg)
  else Except.ok (cid.getD "", cs.getD "")

/-- Counterexample to C9 as stated: with the CLI flag present but empty
(`--client-id ""`) and an environment value set, the environment value -
not the CLI value - is used: the fetch runs with client id `"envid"`,
not `""`. -/
theorem c9_counterexample :
    mainCredsStep (some "") (some "sec") (some "envid") (some "esec") =
      Except.ok ("envid", "sec") ∧ ("" : String) ≠ "envid" := by
  constructor
  · rfl
  · decide

/-- C9 as amended: a CLI flag value is used when present and truthy
(non-empty); otherwise the environment value is used; when either
resolved credential is absent or empty the program exits with code 1 and
a stderr message containing "credentials", without invoking the remote
fetch; otherwise the fetch is invoked with the resolved pair. -/
theorem c9_credentials (a b c d : Option String) :
    (truthy a = true → pyOr a c = a) ∧
    (truthy a = false → pyOr a c = c) ∧
    ((truthy (pyOr a c) = false ∨ truthy (pyOr b d) = false) →
      mainCredsStep a b c d = Except.error (1, credsMsg) ∧
        "credentials".toList <:+: credsMsg) ∧
    (truthy (pyOr a c) = true → truthy (pyOr b d) = true →
      mainCredsStep a b c d = Except.ok ((pyOr a c).getD "", (pyOr b d).getD "")) := by
  refine ⟨fun h => by simp [pyOr, h], fun h => by simp [pyOr, h], fun h => ?_, fun h1 h2 => ?_⟩
  · constructor
    · rcases h with h | h <;> simp [mainCredsStep, h]
    · exact ⟨"Error: Reddit API ".toList,
        " required. Provide via CLI args or .env file.".toList, by decide⟩
  · simp [mainCredsStep, h1, h2]

/-- Witness for C9 (amended) with no credential source at all. -/
theorem c9_credentials_witness :
    mainCredsStep none none none none = Except.error (1, credsMsg) ∧
    "credentials".toList <:+: credsMsg :=
  (c9_credentials none none none none).2.2.1 (Or.inl (by decide))

end RedditRipper
